import Mathlib

/-!
Verification of the template-engine core (`src/TemplateEngine.js`).

This file shallowly embeds the compiler/runtime core of the template engine:
the HTML escape function, the marker tokenizer (the regex scan of `#compile`),
the code generator, the bounded FIFO compilation cache, the plugin context,
and the `render`/`clear` drivers.  Definitions are translated from the source
file `src/TemplateEngine.js`; host-language behaviour that the source invokes
but does not define (the `Function` constructor, execution of generated code)
is modelled separately and marked as such in doc comments.
-/

set_option maxRecDepth 10000

namespace TemplateEngine

/-- JS values as they appear in template data: strings, numbers (restricted to
integers, which is all the engine's tests and examples use), booleans, `null`,
`undefined`, arrays, and plain objects. -/
inductive Value where
  | str (s : String)
  | num (n : Int)
  | boolean (b : Bool)
  | nullV
  | undefV
  | list (vs : List Value)
  | obj (fields : List (String × Value))

/-- Modelled from the spec: the host-language string coercion `String(v)` used
by `#escapeHTML` (`String(str)`) and by `output += v`.  Strings are unchanged,
numbers print in decimal, `null`/`undefined`/booleans print their keyword,
arrays join their elements with `,` (with `null`/`undefined` elements printing
as empty, per `Array.prototype.join`), and plain objects print as
`[object Object]`. -/
def valueToString : Value → String
  | .str s => s
  | .num n => toString n
  | .boolean b => cond b "true" "false"
  | .nullV => "null"
  | .undefV => "undefined"
  | .obj _ => "[object Object]"
  | .list [] => ""
  | .list [w] =>
      (match w with
       | .nullV => ""
       | .undefV => ""
       | w' => valueToString w')
  | .list (w :: vs) =>
      (match w with
       | .nullV => ""
       | .undefV => ""
       | w' => valueToString w') ++ "," ++ valueToString (.list vs)

/-- The per-character replacement table of `#escape`:
`{ '&': '&amp;', '<': '&lt;', '>': '&gt;', '"': '&quot;', "'": '&#39;' }`,
combined with the character class `#escapeRe = /[&<>"']/g`: a character in the
class maps to its entity, any other character is left unchanged. -/
def escapeChar (c : Char) : String :=
  if c = '&' then "&amp;"
  else if c = '<' then "&lt;"
  else if c = '>' then "&gt;"
  else if c = '"' then "&quot;"
  else if c = '\'' then "&#39;"
  else String.singleton c

/-- The single left-to-right pass of `String.prototype.replace` with the global
regex `/[&<>"']/g`: each character is inspected once, matched characters are
replaced by `#escape[m]`, and the replacement text is emitted without being
rescanned. -/
def escapeList : List Char → String
  | [] => ""
  | c :: cs => escapeChar c ++ escapeList cs

/-- String-level escape: `str.replace(/[&<>"']/g, m => this.#escape[m])` for a
string input. -/
def escapeString (s : String) : String := escapeList s.data

/-- Source `#escapeHTML = str => String(str).replace(this.#escapeRe, m => this.#escape[m])`:
coerce the value to a string, then run the single-pass replacement. -/
def escapeHTML (v : Value) : String := escapeString (valueToString v)

/-- Semantics of `output += expr;` (the `RawOutput` statement `[[- expr ]]`
generates): JS `+=` on a string accumulator coerces the value with the same
string coercion and appends it unchanged. -/
def rawAppend (output : String) (v : Value) : String := output ++ valueToString v

theorem valueToString_str (s : String) : valueToString (.str s) = s := by
  simp [valueToString]

theorem escapeHTML_str (s : String) : escapeHTML (.str s) = escapeString s := by
  simp [escapeHTML, valueToString_str]

theorem escapeList_append (a b : List Char) :
    escapeList (a ++ b) = escapeList a ++ escapeList b := by
  induction a with
  | nil => simp [escapeList]
  | cons c cs ih => simp [escapeList, ih, String.append_assoc]

/-- Claim C1: `#escapeHTML` first coerces its input to the input's string
representation, then performs one left-to-right pass that maps each of the five
characters `& < > " '` to its fixed entity and every other character to itself;
because the pass is a per-character homomorphism whose replacement text is never
rescanned, no entity it produces is double-escaped (escaping the single
character `&` yields exactly `&amp;`, and the characters of an entity already
present in the input are each escaped exactly once).  Raw output
(`output += expr`) emits the value's string representation unchanged. -/
theorem escapeHTML_spec :
    (∀ v : Value, escapeHTML v = escapeString (valueToString v)) ∧
    (escapeString "&" = "&amp;" ∧ escapeString "<" = "&lt;" ∧
     escapeString ">" = "&gt;" ∧ escapeString "\"" = "&quot;" ∧
     escapeString "\'" = "&#39;") ∧
    (∀ c : Char, c ∉ ['&', '<', '>', '"', '\''] →
      escapeString (String.singleton c) = String.singleton c) ∧
    (∀ a b : List Char, escapeList (a ++ b) = escapeList a ++ escapeList b) ∧
    (∀ s : String, escapeString s = escapeList s.data) ∧
    (∀ output : String, ∀ v : Value, rawAppend output v = output ++ valueToString v) := by
  refine ⟨fun _ => rfl, ⟨rfl, rfl, rfl, rfl, rfl⟩, ?_, escapeList_append,
    fun _ => rfl, fun _ _ => rfl⟩
  intro c hc
  simp only [List.mem_cons, List.mem_singleton, not_or] at hc
  obtain ⟨h1, h2, h3, h4, h5⟩ := hc
  simp [String.singleton, escapeString, escapeList, escapeChar, h1, h2, h3, h4, h5]

/-- Witness for `escapeHTML_spec`: instantiating the hypothesis-bearing
conjunct at the concrete character `x` (not in the escaped class) leaves it
unchanged. -/
theorem escapeHTML_spec_witness :
    escapeString (String.singleton 'x') = String.singleton 'x' :=
  escapeHTML_spec.2.2.1 'x' (by decide)

/-! ## Tokenizer

The scan of `#compile`:
`const re = /\[\[=?-?([\s\S]+?)\]\]|([^\[]+)/g` driven by
`while ((m = re.exec(processedTpl)))`.  The first alternative matches a marker:
the open delimiter `[[`, a greedy optional `=` then a greedy optional `-`, a
lazy non-empty run of arbitrary characters (newlines included), and the close
delimiter `]]`; the token kind is decided by `m[0].slice(0, 3)` and the inner
text `m[1]` is trimmed.  The second alternative matches a maximal non-empty run
of characters other than `[`.  `exec` advances past any character at which
neither alternative matches (such a character is necessarily `[`), so those
characters belong to no match at all. -/

/-- Token kinds produced by the scan (named after the spec's data model). -/
inductive Token where
  | Text (literal : String)
  | EscapedOutput (expr : String)
  | RawOutput (expr : String)
  | CodeStatement (expr : String)
  deriving DecidableEq, Repr

/-- Does the list begin with the close delimiter `]]`? -/
def startsClose : List Char → Bool
  | ']' :: ']' :: _ => true
  | _ => false

/-- Least index `i ≥ 0` at which the close delimiter `]]` begins. -/
def findCloseAux : List Char → Option Nat
  | [] => none
  | c :: cs =>
      if startsClose (c :: cs) then some 0
      else (findCloseAux cs).map (· + 1)

/-- The lazy scan `([\s\S]+?)\]\]`: least index `i ≥ 1` (the content is
non-empty) at which the close delimiter `]]` begins. -/
def findClose : List Char → Option Nat
  | [] => none
  | _ :: cs => (findCloseAux cs).map (· + 1)

/-- Split at the nearest close delimiter: the (non-empty) marker content and
the characters remaining after the consumed `]]`. -/
def closeSplit (l : List Char) : Option (List Char × List Char) :=
  match findClose l with
  | some i => some (l.take i, l.drop (i + 2))
  | none => none

/-- Modelled from the spec: the whitespace class of the host
`String.prototype.trim` — space, tab, line feed, carriage return, vertical
tab, form feed, no-break space, BOM, and the line/paragraph separators. -/
def jsWhitespace (c : Char) : Bool :=
  c = ' ' || c = '\t' || c = '\n' || c = '\r' || c = '\x0b' || c = '\x0c' ||
  c = '\u00A0' || c = '\uFEFF' || c = '\u2028' || c = '\u2029'

/-- Modelled from the spec: the host `m[1].trim()` — strip leading and
trailing whitespace from the marker content. -/
def jsTrim (content : List Char) : String :=
  String.mk (((content.dropWhile jsWhitespace).reverse.dropWhile
      jsWhitespace).reverse)

/-- Build the token from the third character of the whole match
(`pre = m[0].slice(0, 3)`, compared against `[[=` and `[[-`) and the trimmed
inner text (`m[1].trim()`). -/
def mkToken (preChar : Char) (content : List Char) : Token :=
  let c := jsTrim content
  if preChar = '=' then .EscapedOutput c
  else if preChar = '-' then .RawOutput c
  else .CodeStatement c

/-- One backtracking state of the regex alternative `\[\[=?-?([\s\S]+?)\]\]`:
the optional prefix characters `preChars` (a subset of `=`, `-`) have been
consumed, the lazy content is scanned inside `l`, and the token kind is decided
by `preChar`, the third character of the whole match `m[0]`.  Returns the
token, the consumed span `m[0]`, and the remaining input. -/
def markerWithPre (preChar : Char) (preChars : List Char) (l : List Char) :
    Option (Token × List Char × List Char) :=
  match closeSplit l with
  | some (content, rest) =>
      some (mkToken preChar content,
            '[' :: '[' :: (preChars ++ content ++ [']', ']']), rest)
  | none => none

/-- The backtracking state of the regex in which neither optional `=` nor `-`
is consumed: the lazy content begins right after `[[`, and the token kind is
still decided by the third character of the whole match (here the content's
first character; the content is never empty, so the `headD` default is
unreachable). -/
def markerNoPre (rest0 : List Char) : Option (Token × List Char × List Char) :=
  match closeSplit rest0 with
  | some (content, rest) =>
      some (mkToken (content.headD '[') content,
            '[' :: '[' :: (content ++ [']', ']']), rest)
  | none => none

/-- Match the marker alternative `\[\[=?-?([\s\S]+?)\]\]` at a position whose
input is `'[' :: '[' :: rest0`.  The optionals are greedy, so the engine first
tries to consume `=` and then `-`, backtracking towards shorter optional
prefixes when no close delimiter completes the match. -/
def matchMarker (rest0 : List Char) : Option (Token × List Char × List Char) :=
  match rest0 with
  | '=' :: '-' :: r2 =>
      (match markerWithPre '=' ['=', '-'] r2 with
       | some res => some res
       | none =>
           match markerWithPre '=' ['='] ('-' :: r2) with
           | some res => some res
           | none => markerNoPre rest0)
  | '=' :: r1 =>
      (match markerWithPre '=' ['='] r1 with
       | some res => some res
       | none => markerNoPre rest0)
  | '-' :: r1 =>
      (match markerWithPre '-' ['-'] r1 with
       | some res => some res
       | none => markerNoPre rest0)
  | _ => markerNoPre rest0

/-- One step of the `exec` loop, instrumented: either a token together with its
consumed span `m[0]`, or a single character that `exec` skipped because no
alternative matched there (always a `[`). -/
inductive ScanItem where
  | item (t : Token) (consumed : List Char)
  | skipped (c : Char)
  deriving DecidableEq, Repr

/-- The full `exec` loop over the input, with fuel (one unit per step; every
step consumes at least one character, so `cs.length` units always suffice).
At each position: a marker match if the input starts with `[[` and a close
delimiter completes it; otherwise, at a `[`, the character is skipped; at any
other character, a maximal run of non-`[` characters becomes a text token. -/
def scanN : Nat → List Char → List ScanItem
  | 0, _ => []
  | _ + 1, [] => []
  | fuel + 1, c :: cs =>
      if c = '[' then
        match cs with
        | '[' :: rest0 =>
            (match matchMarker rest0 with
             | some (t, consumed, rest) => .item t consumed :: scanN fuel rest
             | none => .skipped '[' :: scanN fuel cs)
        | _ => .skipped '[' :: scanN fuel cs
      else
        .item (.Text (String.mk ((c :: cs).takeWhile (· != '['))))
              ((c :: cs).takeWhile (· != '['))
          :: scanN fuel ((c :: cs).dropWhile (· != '['))

/-- Erase the instrumentation, keeping the tokens in order. -/
def tokensOf (items : List ScanItem) : List Token :=
  items.filterMap fun it =>
    match it with
    | .item t _ => some t
    | .skipped _ => none

/-- The token sequence the engine's `while`/`exec` loop produces for a
template. -/
def tokenize (s : String) : List Token :=
  tokensOf (scanN s.data.length s.data)

/-- The characters of the input that one scan step accounts for: the consumed
span of a match, or the single skipped character. -/
def itemChars : ScanItem → List Char
  | .item _ consumed => consumed
  | .skipped c => [c]

theorem startsClose_eq (l : List Char) (h : startsClose l = true) :
    ∃ t, l = ']' :: ']' :: t := by
  unfold startsClose at h
  split at h
  · rename_i t
    exact ⟨t, rfl⟩
  · exact absurd h (by simp)

theorem findCloseAux_startsClose (l : List Char) (i : Nat)
    (h : findCloseAux l = some i) : startsClose (l.drop i) = true := by
  induction l generalizing i with
  | nil => simp [findCloseAux] at h
  | cons c cs ih =>
      rw [findCloseAux] at h
      by_cases hc : startsClose (c :: cs) = true
      · rw [if_pos hc] at h
        injection h with h
        subst h
        simpa using hc
      · rw [if_neg hc] at h
        cases hf : findCloseAux cs with
        | none => rw [hf] at h; exact absurd h (by simp)
        | some j =>
            rw [hf, Option.map_some'] at h
            injection h with h
            subst h
            simpa using ih j hf

theorem findCloseAux_min (l : List Char) (i : Nat)
    (h : findCloseAux l = some i) :
    ∀ j, j < i → startsClose (l.drop j) = false := by
  induction l generalizing i with
  | nil => simp [findCloseAux] at h
  | cons c cs ih =>
      rw [findCloseAux] at h
      by_cases hc : startsClose (c :: cs) = true
      · rw [if_pos hc] at h
        injection h with h
        subst h
        omega
      · rw [if_neg hc] at h
        cases hf : findCloseAux cs with
        | none => rw [hf] at h; exact absurd h (by simp)
        | some j' =>
            rw [hf, Option.map_some'] at h
            injection h with h
            subst h
            intro j hj
            match j with
            | 0 => simpa using hc
            | k + 1 => simpa using ih j' hf k (by omega)

theorem findCloseAux_le (l : List Char) (i : Nat)
    (h : findCloseAux l = some i) : i + 2 ≤ l.length := by
  obtain ⟨t, ht⟩ := startsClose_eq _ (findCloseAux_startsClose l i h)
  have hlen : (l.drop i).length = l.length - i := List.length_drop i l
  rw [ht] at hlen
  simp only [List.length_cons] at hlen
  have hi : i ≤ l.length := by
    by_contra hlt
    rw [List.drop_eq_nil_of_le (by omega)] at ht
    exact absurd ht (by simp)
  omega

theorem findClose_spec (l : List Char) (i : Nat) (h : findClose l = some i) :
    1 ≤ i ∧ startsClose (l.drop i) = true ∧ i + 2 ≤ l.length ∧
      ∀ j, 1 ≤ j → j < i → startsClose (l.drop j) = false := by
  match l with
  | [] => simp [findClose] at h
  | c :: cs =>
      rw [findClose] at h
      cases hf : findCloseAux cs with
      | none => rw [hf] at h; exact absurd h (by simp)
      | some j =>
          rw [hf, Option.map_some'] at h
          injection h with h
          subst h
          refine ⟨by omega, ?_, ?_, ?_⟩
          · simpa using findCloseAux_startsClose cs j hf
          · have := findCloseAux_le cs j hf
            simp only [List.length_cons]
            omega
          · intro k hk1 hki
            match k with
            | k' + 1 => simpa using findCloseAux_min cs j hf k' (by omega)

theorem closeSplit_eq (l content rest : List Char)
    (h : closeSplit l = some (content, rest)) :
    l = content ++ ']' :: ']' :: rest ∧ 1 ≤ content.length := by
  rw [closeSplit] at h
  cases hf : findClose l with
  | none => rw [hf] at h; exact absurd h (by simp)
  | some i =>
      rw [hf] at h
      simp only [Option.some.injEq, Prod.mk.injEq] at h
      obtain ⟨hc, hr⟩ := h
      obtain ⟨h1, hsc, hle, _⟩ := findClose_spec l i hf
      obtain ⟨t, ht⟩ := startsClose_eq _ hsc
      have hdrop : l.drop (i + 2) = t := by
        rw [← List.drop_drop, ht]
        rfl
      constructor
      · conv_lhs => rw [← List.take_append_drop i l]
        rw [ht, ← hc, ← hr, hdrop]
      · rw [← hc, List.length_take]
        omega

theorem closeSplit_len (l content rest : List Char)
    (h : closeSplit l = some (content, rest)) : rest.length + 3 ≤ l.length := by
  obtain ⟨hl, hc⟩ := closeSplit_eq l content rest h
  rw [hl]
  simp only [List.length_append, List.length_cons]
  omega

theorem markerWithPre_append (preChar : Char) (preChars l : List Char)
    (t : Token) (consumed rest : List Char)
    (h : markerWithPre preChar preChars l = some (t, consumed, rest)) :
    consumed ++ rest = '[' :: '[' :: (preChars ++ l) ∧ rest.length + 3 ≤ l.length := by
  rw [markerWithPre] at h
  cases hf : closeSplit l with
  | none => rw [hf] at h; exact absurd h (by simp)
  | some p =>
      obtain ⟨content, r⟩ := p
      rw [hf] at h
      simp only [Option.some.injEq, Prod.mk.injEq] at h
      obtain ⟨_, hcons, hrest⟩ := h
      obtain ⟨hsplit, hc1⟩ := closeSplit_eq l content r hf
      have hlen := closeSplit_len l content r hf
      subst hcons hrest
      refine ⟨?_, hlen⟩
      simp [hsplit, List.append_assoc]

theorem markerNoPre_append (rest0 : List Char) (t : Token)
    (consumed rest : List Char)
    (h : markerNoPre rest0 = some (t, consumed, rest)) :
    consumed ++ rest = '[' :: '[' :: rest0 ∧ rest.length + 3 ≤ rest0.length := by
  rw [markerNoPre] at h
  cases hf : closeSplit rest0 with
  | none => rw [hf] at h; exact absurd h (by simp)
  | some p =>
      obtain ⟨content, r⟩ := p
      rw [hf] at h
      simp only [Option.some.injEq, Prod.mk.injEq] at h
      obtain ⟨_, hcons, hrest⟩ := h
      obtain ⟨hsplit, hc1⟩ := closeSplit_eq rest0 content r hf
      have hlen := closeSplit_len rest0 content r hf
      subst hcons hrest
      refine ⟨?_, hlen⟩
      simp [hsplit, List.append_assoc]

theorem matchMarker_append (rest0 : List Char) (t : Token)
    (consumed rest : List Char)
    (h : matchMarker rest0 = some (t, consumed, rest)) :
    consumed ++ rest = '[' :: '[' :: rest0 ∧ rest.length ≤ rest0.length := by
  unfold matchMarker at h
  split at h
  case h_1 r2 =>
      split at h
      case h_1 res heq =>
          injection h with h
          subst h
          obtain ⟨ha, hl⟩ := markerWithPre_append _ _ _ _ _ _ heq
          exact ⟨by simpa using ha, by simp only [List.length_cons]; omega⟩
      case h_2 heq =>
          split at h
          case h_1 res heq2 =>
              injection h with h
              subst h
              obtain ⟨ha, hl⟩ := markerWithPre_append _ _ _ _ _ _ heq2
              refine ⟨by simpa using ha, ?_⟩
              simp only [List.length_cons] at hl ⊢
              omega
          case h_2 heq2 =>
              obtain ⟨ha, hl⟩ := markerNoPre_append _ _ _ _ h
              exact ⟨ha, by omega⟩
  case h_2 r1 =>
      split at h
      case h_1 res heq =>
          injection h with h
          subst h
          obtain ⟨ha, hl⟩ := markerWithPre_append _ _ _ _ _ _ heq
          refine ⟨by simpa using ha, ?_⟩
          simp only [List.length_cons] at hl ⊢
          omega
      case h_2 heq =>
          obtain ⟨ha, hl⟩ := markerNoPre_append _ _ _ _ h
          exact ⟨ha, by omega⟩
  case h_3 r1 =>
      split at h
      case h_1 res heq =>
          injection h with h
          subst h
          obtain ⟨ha, hl⟩ := markerWithPre_append _ _ _ _ _ _ heq
          refine ⟨by simpa using ha, ?_⟩
          simp only [List.length_cons] at hl ⊢
          omega
      case h_2 heq =>
          obtain ⟨ha, hl⟩ := markerNoPre_append _ _ _ _ h
          exact ⟨ha, by omega⟩
  case h_4 =>
      obtain ⟨ha, hl⟩ := markerNoPre_append _ _ _ _ h
      exact ⟨ha, by omega⟩

theorem dropWhile_length_le (p : Char → Bool) (l : List Char) :
    (l.dropWhile p).length ≤ l.length := by
  induction l with
  | nil => simp
  | cons a l ih =>
      rw [List.dropWhile_cons]
      by_cases hpa : p a = true
      · rw [if_pos hpa]
        simp only [List.length_cons]
        omega
      · rw [if_neg hpa]

theorem scanN_reconstruct : ∀ (fuel : Nat) (cs : List Char), cs.length ≤ fuel →
    ((scanN fuel cs).map itemChars).flatten = cs := by
  intro fuel
  induction fuel with
  | zero =>
      intro cs h
      have hnil : cs = [] := List.length_eq_zero.mp (by omega)
      subst hnil
      simp [scanN]
  | succ fuel ih =>
      intro cs h
      cases cs with
      | nil => simp [scanN]
      | cons c cs' =>
          simp only [scanN]
          by_cases hc : c = '['
          · rw [if_pos hc]
            split
            · rename_i rest0
              split
              · rename_i t consumed rest heq
                obtain ⟨ha, hlen⟩ := matchMarker_append rest0 t consumed rest heq
                have hrest : rest.length ≤ fuel := by
                  simp only [List.length_cons] at h
                  omega
                simp only [List.map_cons, List.flatten_cons, itemChars]
                rw [ih rest hrest, ha, hc]
              · have hlen2 : ('[' :: rest0).length ≤ fuel := by
                  simp only [List.length_cons] at h ⊢
                  omega
                simp only [List.map_cons, List.flatten_cons, itemChars]
                rw [ih ('[' :: rest0) hlen2, hc]
                rfl
            · rename_i hnotbr
              have hlen2 : cs'.length ≤ fuel := by
                simp only [List.length_cons] at h
                omega
              simp only [List.map_cons, List.flatten_cons, itemChars]
              rw [ih cs' hlen2, hc]
              rfl
          · rw [if_neg hc]
            have hdw : (c :: cs').dropWhile (· != '[') = cs'.dropWhile (· != '[') := by
              rw [List.dropWhile_cons]
              simp [hc]
            have hlen2 : ((c :: cs').dropWhile (· != '[')).length ≤ fuel := by
              rw [hdw]
              have := dropWhile_length_le (· != '[') cs'
              simp only [List.length_cons] at h
              omega
            simp only [List.map_cons, List.flatten_cons, itemChars]
            rw [ih ((c :: cs').dropWhile (· != '[')) hlen2,
               List.takeWhile_append_dropWhile]

theorem scanN_skipped : ∀ (fuel : Nat) (cs : List Char) (c : Char),
    ScanItem.skipped c ∈ scanN fuel cs → c = '[' := by
  intro fuel
  induction fuel with
  | zero => intro cs c h; simp [scanN] at h
  | succ fuel ih =>
      intro cs c h
      cases cs with
      | nil => simp [scanN] at h
      | cons a cs' =>
          simp only [scanN] at h
          by_cases ha : a = '['
          · rw [if_pos ha] at h
            split at h
            · split at h
              · refine (List.mem_cons.mp h).elim (fun h2 => ?_) (fun h2 => ih _ c h2)
                exact absurd h2 (by simp)
              · refine (List.mem_cons.mp h).elim (fun h2 => ?_) (fun h2 => ih _ c h2)
                injection h2 with h2
            · refine (List.mem_cons.mp h).elim (fun h2 => ?_) (fun h2 => ih _ c h2)
              injection h2 with h2
          · rw [if_neg ha] at h
            refine (List.mem_cons.mp h).elim (fun h2 => ?_) (fun h2 => ih _ c h2)
            exact absurd h2 (by simp)

/-- Claim C6, counterexample: the claim says an unmatched open delimiter `[[`
"falls through as literal text" when no close delimiter follows, and that the
token sequence covers the entire input with no gaps.  On the input `[[x`
(which has no `]]` anywhere) the scan instead *skips* both `[` characters —
`exec` advances past positions where neither regex alternative matches — so the
only token is `Text "x"`: the open delimiter appears in no token at all, and
the tokens do not cover the input. -/
theorem tokenize_unmatched_open_cex :
    tokenize "[[x" = [Token.Text "x"] ∧
      tokenize "[[x" ≠ [Token.Text "[[x"] := by
  exact ⟨by decide, by decide⟩

/-- Claim C6, amended: for every template string, the scan produces an ordered
sequence of steps with no overlaps that accounts for the entire input: each
step is either a token with its consumed span or a single *skipped* character,
the concatenation of the consumed spans and skipped characters is exactly the
input (no gaps), and every skipped character is a `[` that begins no complete
marker.  Thus an unmatched open delimiter is dropped from the token stream
rather than kept as literal text; when a close delimiter does exist with at
least one content character before it, the non-greedy scan attaches the marker
to the nearest close, even across lines (`findClose` returns the least
admissible index). -/
theorem tokenize_scan_amended :
    (∀ (fuel : Nat) (cs : List Char), cs.length ≤ fuel →
        ((scanN fuel cs).map itemChars).flatten = cs) ∧
    (∀ (fuel : Nat) (cs : List Char) (c : Char),
        ScanItem.skipped c ∈ scanN fuel cs → c = '[') ∧
    (∀ s : String, tokenize s = tokensOf (scanN s.data.length s.data)) ∧
    (∀ (l : List Char) (i : Nat), findClose l = some i →
        1 ≤ i ∧ startsClose (l.drop i) = true ∧
          ∀ j, 1 ≤ j → j < i → startsClose (l.drop j) = false) :=
  ⟨scanN_reconstruct, scanN_skipped, fun _ => rfl,
   fun l i h =>
     ⟨(findClose_spec l i h).1, (findClose_spec l i h).2.1,
      (findClose_spec l i h).2.2.2⟩⟩

/-- Witness for `tokenize_scan_amended`: concrete instantiations — the scan of
`a[b` reconstructs the input (with the lone `[` recorded as skipped), the
skipped character of that scan is `[`, and on ` x]]z` the nearest close is
found at index 2 with no earlier admissible close. -/
theorem tokenize_scan_amended_witness :
    ((scanN 3 "a[b".data).map itemChars).flatten = "a[b".data ∧
    ('[' : Char) = '[' ∧
    (1 ≤ 2 ∧ startsClose ((" x]]z".data).drop 2) = true ∧
      ∀ j, 1 ≤ j → j < 2 → startsClose ((" x]]z".data).drop j) = false) :=
  ⟨tokenize_scan_amended.1 3 "a[b".data (by decide),
   tokenize_scan_amended.2.1 3 "a[b".data '[' (by decide),
   tokenize_scan_amended.2.2.2 " x]]z".data 2 (by decide)⟩

/-! ## Code generator

`#compile`'s loop body appends one statement per match:
`output+=escapeHTML(expr);` for `[[=`, `output+=expr;` for `[[-`, the
statement text verbatim for a plain `[[ ]]` marker, and
`output+=JSON.stringify(text);` for literal text. -/

/-- Lower-case hexadecimal digit. -/
def hexDigit (n : Nat) : Char :=
  if n < 10 then Char.ofNat ('0'.toNat + n) else Char.ofNat ('a'.toNat + (n - 10))

/-- Four-digit lower-case hexadecimal rendering, as in `\u0007`. -/
def hex4 (n : Nat) : String :=
  String.mk [hexDigit (n / 4096 % 16), hexDigit (n / 256 % 16),
             hexDigit (n / 16 % 16), hexDigit (n % 16)]

/-- Modelled from the spec: the host `JSON.stringify` escaping of one character
inside a string value ("a safe string-literal encoding of arbitrary content,
including quotes/newlines/unicode"): quote and backslash are backslash-escaped,
the named control escapes are used where they exist, all other control
characters become `\uXXXX`, and everything else is emitted unchanged. -/
def jsonEscapeChar (c : Char) : String :=
  if c = '"' then "\\\""
  else if c = '\\' then "\\\\"
  else if c = '\n' then "\\n"
  else if c = '\r' then "\\r"
  else if c = '\t' then "\\t"
  else if c = '\x08' then "\\b"
  else if c = '\x0c' then "\\f"
  else if c.toNat < 32 then "\\u" ++ hex4 c.toNat
  else String.singleton c

/-- Modelled from the spec: `JSON.stringify` applied to a string — the escaped
characters wrapped in double quotes. -/
def jsonStringify (s : String) : String :=
  "\"" ++ String.join (s.data.map jsonEscapeChar) ++ "\""

/-- The statement generated for one token (`#compile`'s loop body). -/
def stmtOfToken : Token → String
  | .Text s => "output+=" ++ jsonStringify s ++ ";\n"
  | .EscapedOutput e => "output+=escapeHTML(" ++ e ++ ");\n"
  | .RawOutput e => "output+=" ++ e ++ ";\n"
  | .CodeStatement e => e ++ "\n"

/-- The inner code: `let output="";\n`, one statement per token in order, then
`return output;`. -/
def genCode (tokens : List Token) : String :=
  "let output=\"\";\n" ++ String.join (tokens.map stmtOfToken) ++ "return output;"

/-! ## Engine state, cache, compile, render, clear -/

/-- A compiled routine as cached by the engine: the formal parameter list and
final wrapped body source handed to the `Function` constructor, both fixed at
construction time. -/
structure Routine where
  params : List String
  body : String
  deriving DecidableEq, Repr

/-- The engine's private state: the insertion-ordered compilation cache
(`#cache`, a `Map`), its bound (`#maxCache`), the plugin context's four
collections (`#context.preprocessors/wrappers/extraParams/extraArgs`), the
installed plugin list (`#plugins`) and plugin-attached engine properties (such
as a partials registry).  The three counters (`cacheLookups`, `ppCalls`,
`fnBuilds`) instrument the observable effects — cache consultations,
preprocessor invocations and routine constructions — and are not themselves
part of the source's state. -/
structure Engine where
  cache : List (String × Routine)
  maxCache : Nat
  preprocessors : List (String → String)
  wrappers : List (String → String → String)
  extraParams : List String
  extraArgs : List Value
  plugins : List String
  pluginData : List (String × String)
  cacheLookups : Nat
  ppCalls : Nat
  fnBuilds : Nat

/-- A fresh engine: empty cache, `#maxCache = 100`, no plugins, empty
context. -/
def newEngine : Engine :=
  { cache := [], maxCache := 100, preprocessors := [], wrappers := [],
    extraParams := [], extraArgs := [], plugins := [], pluginData := [],
    cacheLookups := 0, ppCalls := 0, fnBuilds := 0 }

/-- Exact-string `Map` lookup in the insertion-ordered cache
(`#cache.has`/`#cache.get`). -/
def cacheGet (cache : List (String × Routine)) (k : String) : Option Routine :=
  (cache.find? (fun p => p.1 == k)).map (·.2)

/-- Modelled from the spec: the syntax check the host `Function` constructor
performs on generated source — construction throws a `SyntaxError` exactly on
malformed source, which for the code this engine generates (the spec's
example: an unbalanced code-statement block) is modelled as brace imbalance
outside string literals.  The scan tracks string-literal state (double or
single quote, with backslash escapes) and the brace depth. -/
def braceScan : List Char → Option Char → Nat → Option String
  | [], instr, d =>
      (match instr, d with
       | some _, _ => some "Invalid or unexpected token"
       | none, 0 => none
       | none, _ + 1 => some "Unexpected end of input")
  | c :: cs, some q, d =>
      if c = '\\' then
        match cs with
        | [] => some "Invalid or unexpected token"
        | _ :: cs2 => braceScan cs2 (some q) d
      else if c = q then braceScan cs none d
      else braceScan cs (some q) d
  | c :: cs, none, d =>
      if c = '"' then braceScan cs (some '"') d
      else if c = '\'' then braceScan cs (some '\'') d
      else if c = '{' then braceScan cs none (d + 1)
      else if c = '}' then
        (match d with
         | 0 => some "Unexpected token"
         | d' + 1 => braceScan cs none d')
      else braceScan cs none d

/-- Modelled from the spec: `new Function(...params, fnCode)` — turning the
generated source into an executable routine.  It fails with the underlying
syntax error's message when the body is malformed, and otherwise yields the
routine with its formal parameter list and body fixed at construction time. -/
def newFunction (params : List String) (body : String) : Except String Routine :=
  match braceScan body.data none 0 with
  | some msg => .error msg
  | none => .ok { params := params, body := body }

/-- The preprocessor hook:
`this.#context.preprocessors.forEach(fn => processedTpl = fn(processedTpl))`. -/
def applyPreprocessors (pps : List (String → String)) (tpl : String) : String :=
  pps.foldl (fun acc f => f acc) tpl

/-- The wrapper hook:
`this.#context.wrappers.forEach(fn => fnCode = fn(fnCode, code))`. -/
def applyWrappers (ws : List (String → String → String))
    (fnCode0 code : String) : String :=
  ws.foldl (fun acc f => f acc code) fnCode0

/-- The generated routine body for a template under the current context:
preprocess, tokenize and generate the inner code, build the default wrapper
`with(data) \x7b ... \x7d`, then run the wrappers. -/
def fnCodeOf (e : Engine) (tpl : String) : String :=
  let code := genCode (tokenize (applyPreprocessors e.preprocessors tpl))
  applyWrappers e.wrappers ("with(data) \x7b " ++ code ++ " \x7d") code

/-- The formal parameter list
`['data', 'escapeHTML', ...(this.#context.extraParams || [])]`. -/
def paramsOf (e : Engine) : List String :=
  "data" :: "escapeHTML" :: e.extraParams

/-- Source `#compile(tpl)`: consult the cache keyed by the raw template string; on a
hit return the cached routine unchanged.  On a miss: run the preprocessors,
tokenize and generate, wrap, construct the routine; if construction throws,
rethrow as `Template compilation failed: <message>` and cache nothing;
otherwise evict the first-inserted entry when the cache is full
(`#cache.delete(#cache.keys().next().value)`), insert the new entry at the
end, and return the routine. -/
def compile (e : Engine) (tpl : String) : Except String Routine × Engine :=
  let e1 := { e with cacheLookups := e.cacheLookups + 1 }
  match cacheGet e.cache tpl with
  | some fn => (.ok fn, e1)
  | none =>
      let e2 := { e1 with ppCalls := e1.ppCalls + e.preprocessors.length }
      match newFunction (paramsOf e) (fnCodeOf e tpl) with
      | .error msg => (.error ("Template compilation failed: " ++ msg), e2)
      | .ok fn =>
          let kept := if e.maxCache ≤ e.cache.length then e.cache.tail else e.cache
          (.ok fn, { e2 with cache := kept ++ [(tpl, fn)],
                             fnBuilds := e2.fnBuilds + 1 })

/-- The template argument of `render` as JS callers can pass it; `!tpl` is
true exactly for the empty string, `null` and `undefined`. -/
inductive TplArg where
  | str (s : String)
  | nullArg
  | undefArg

/-- JS falsiness of the template argument (`!tpl`). -/
def TplArg.falsy : TplArg → Bool
  | .str s => s.isEmpty
  | .nullArg => true
  | .undefArg => true

/-- The actual argument record `render` builds at invocation time:
`[data, this.#escapeHTML, ...(this.#context.extraArgs || [])]`.  The record
form keeps the fixed positions (`data`, then the escape function) apart from
the plugin-supplied tail, whose order matches `extraParams`. -/
structure CallArgs where
  data : Value
  escape : Value → String
  extra : List Value

/-- Build the actual arguments from the engine state current at this
invocation. -/
def buildArgs (e : Engine) (data : Value) : CallArgs :=
  { data := data, escape := escapeHTML, extra := e.extraArgs }

/-- Source `render(tpl, data)`.  Executing the compiled routine is host-language
behaviour (dynamic code execution), so `render` is parametric in the executor
`exec`; theorems about `render` hold for every executor.  The `try`/`catch`
wraps both the compilation and the invocation: any error thrown inside is
rethrown as `Template render failed: <message>`. -/
def render (exec : Routine → CallArgs → Except String String) (e : Engine)
    (tpl : TplArg) (data : Value) : Except String String × Engine :=
  match tpl with
  | .nullArg => (.error "Template required", e)
  | .undefArg => (.error "Template required", e)
  | .str s =>
      if s.isEmpty then (.error "Template required", e)
      else
        let args := buildArgs e data
        match compile e s with
        | (.ok fn, e1) =>
            (match exec fn args with
             | .ok out => (.ok out, e1)
             | .error msg => (.error ("Template render failed: " ++ msg), e1))
        | (.error msg, e1) => (.error ("Template render failed: " ++ msg), e1)

/-- Source `clear()`: `this.#cache.clear(); return this`. -/
def clear (e : Engine) : Engine := { e with cache := [] }

/-! ## Helper lemmas about compile, the cache, and render -/

theorem compile_hit (e : Engine) (tpl : String) (fn : Routine)
    (h : cacheGet e.cache tpl = some fn) :
    compile e tpl = (.ok fn, { e with cacheLookups := e.cacheLookups + 1 }) := by
  unfold compile
  rw [h]

theorem compile_miss_ok (e : Engine) (tpl : String) (fn : Routine)
    (hm : cacheGet e.cache tpl = none)
    (hf : newFunction (paramsOf e) (fnCodeOf e tpl) = .ok fn) :
    compile e tpl =
      (.ok fn,
       { e with
           cache := (if e.maxCache ≤ e.cache.length then e.cache.tail
                     else e.cache) ++ [(tpl, fn)],
           cacheLookups := e.cacheLookups + 1,
           ppCalls := e.ppCalls + e.preprocessors.length,
           fnBuilds := e.fnBuilds + 1 }) := by
  unfold compile
  rw [hm, hf]

theorem compile_miss_err (e : Engine) (tpl : String) (msg : String)
    (hm : cacheGet e.cache tpl = none)
    (hf : newFunction (paramsOf e) (fnCodeOf e tpl) = .error msg) :
    compile e tpl =
      (.error ("Template compilation failed: " ++ msg),
       { e with
           cacheLookups := e.cacheLookups + 1,
           ppCalls := e.ppCalls + e.preprocessors.length }) := by
  unfold compile
  rw [hm, hf]

theorem newFunction_ok (ps : List String) (b : String) (fn : Routine)
    (h : newFunction ps b = .ok fn) : fn.params = ps ∧ fn.body = b := by
  unfold newFunction at h
  cases hb : braceScan b.data none 0 with
  | some m => rw [hb] at h; exact absurd h (by simp)
  | none =>
      rw [hb] at h
      injection h with h
      exact ⟨by rw [← h], by rw [← h]⟩

theorem cacheGet_cons (p : String × Routine) (c : List (String × Routine))
    (k : String) :
    cacheGet (p :: c) k
      = if (p.1 == k) = true then some p.2 else cacheGet c k := by
  simp only [cacheGet, List.find?]
  cases hp : (p.1 == k) with
  | true => simp [hp]
  | false => simp [hp]

theorem cacheGet_append (c : List (String × Routine)) (k : String) (fn : Routine)
    (h : cacheGet c k = none) : cacheGet (c ++ [(k, fn)]) k = some fn := by
  induction c with
  | nil => simp [cacheGet, List.find?]
  | cons p c ih =>
      rw [cacheGet_cons] at h
      by_cases hp : (p.1 == k) = true
      · rw [if_pos hp] at h
        exact absurd h (by simp)
      · rw [if_neg hp] at h
        rw [List.cons_append, cacheGet_cons, if_neg hp]
        exact ih h

theorem cacheGet_tail_none (c : List (String × Routine)) (k : String)
    (h : cacheGet c k = none) : cacheGet c.tail k = none := by
  cases c with
  | nil => simpa using h
  | cons p c =>
      rw [cacheGet_cons] at h
      by_cases hp : (p.1 == k) = true
      · rw [if_pos hp] at h
        exact absurd h (by simp)
      · rw [if_neg hp] at h
        simpa using h

theorem isEmpty_false_of_ne (s : String) (h : s ≠ "") : s.isEmpty = false := by
  cases he : s.isEmpty
  · rfl
  · exact absurd ((String.isEmpty_iff s).mp he) h

theorem render_str (exec : Routine → CallArgs → Except String String)
    (e : Engine) (s : String) (d : Value) (hne : s.isEmpty = false) :
    render exec e (.str s) d
      = (match compile e s with
         | (.ok fn, e1) =>
             (match exec fn (buildArgs e d) with
              | .ok out => (.ok out, e1)
              | .error msg => (.error ("Template render failed: " ++ msg), e1))
         | (.error msg, e1) =>
             (.error ("Template render failed: " ++ msg), e1)) := by
  simp [render, hne]

theorem render_ok (exec : Routine → CallArgs → Except String String)
    (e : Engine) (s : String) (d : Value) (hne : s.isEmpty = false)
    (fn : Routine) (e1 : Engine) (hc : compile e s = (.ok fn, e1)) :
    (render exec e (.str s) d).1
      = (match exec fn (buildArgs e d) with
         | .ok out => .ok out
         | .error m => .error ("Template render failed: " ++ m)) := by
  rw [render_str exec e s d hne, hc]
  show (match exec fn (buildArgs e d) with
        | Except.ok out => ((Except.ok out : Except String String), e1)
        | Except.error msg =>
            (Except.error ("Template render failed: " ++ msg), e1)).1
      = (match exec fn (buildArgs e d) with
         | Except.ok out => (Except.ok out : Except String String)
         | Except.error m => Except.error ("Template render failed: " ++ m))
  cases exec fn (buildArgs e d) <;> rfl

/-! ## Claims C3, C4, C5, C7 -/

/-- Claim C3: for every falsy template argument — the empty string, `null`, or
`undefined` — `render` throws the `Template required` failure and returns the
engine state bit-for-bit unchanged: in particular the preprocessor-invocation
counter (`ppCalls`) and the cache-consultation counter (`cacheLookups`) are
untouched, so no preprocessor ran and the cache was neither consulted nor
modified; this holds for every executor, so no compilation work of any kind
can have taken place. -/
theorem render_falsy_template_required
    (exec : Routine → CallArgs → Except String String) (e : Engine)
    (t : TplArg) (d : Value) (h : t.falsy = true) :
    render exec e t d = (.error "Template required", e) ∧
    (render exec e t d).2.ppCalls = e.ppCalls ∧
    (render exec e t d).2.cacheLookups = e.cacheLookups ∧
    (render exec e t d).2.cache = e.cache := by
  have hr : render exec e t d = (.error "Template required", e) := by
    match t with
    | .nullArg => rfl
    | .undefArg => rfl
    | .str s =>
        simp only [TplArg.falsy] at h
        simp [render, h]
  exact ⟨hr, by rw [hr], by rw [hr], by rw [hr]⟩

/-- Witness for `render_falsy_template_required`: rendering the empty template
on a fresh engine fails with `Template required` and leaves the state
unchanged. -/
theorem render_falsy_template_required_witness :
    render (fun _ _ => .ok "") newEngine (.str "") .nullV
      = (.error "Template required", newEngine) :=
  (render_falsy_template_required (fun _ _ => .ok "") newEngine (.str "")
    .nullV (by decide)).1

/-- Claim C4: the cache bound and FIFO eviction: the default bound is 100; a
compile preserves the bound (if the cache held at most `maxCache` entries
before, it does after, for any positive bound); when a miss is compiled with
the cache full, the resulting cache is exactly the old cache minus its
first-inserted (head) entry plus the new entry appended at the end — exactly
one entry, the oldest still present, is evicted; and a cache hit returns the
engine with the cache list (hence every entry's position) unchanged, so
reading never refreshes an entry's position. -/
theorem cache_fifo_bound (e : Engine) (tpl : String) :
    newEngine.maxCache = 100 ∧
    (compile e tpl).2.maxCache = e.maxCache ∧
    (1 ≤ e.maxCache → e.cache.length ≤ e.maxCache →
      (compile e tpl).2.cache.length ≤ e.maxCache) ∧
    (∀ fn, cacheGet e.cache tpl = none → e.maxCache ≤ e.cache.length →
      (compile e tpl).1 = .ok fn →
      (compile e tpl).2.cache = e.cache.tail ++ [(tpl, fn)]) ∧
    (∀ fn, cacheGet e.cache tpl = some fn →
      compile e tpl = (.ok fn, { e with cacheLookups := e.cacheLookups + 1 })) := by
  refine ⟨rfl, ?_, ?_, ?_, fun fn h => compile_hit e tpl fn h⟩
  · cases hg : cacheGet e.cache tpl with
    | some fn => rw [compile_hit e tpl fn hg]
    | none =>
        cases hf : newFunction (paramsOf e) (fnCodeOf e tpl) with
        | ok fn => rw [compile_miss_ok e tpl fn hg hf]
        | error msg => rw [compile_miss_err e tpl msg hg hf]
  · intro hpos hlen
    cases hg : cacheGet e.cache tpl with
    | some fn => rw [compile_hit e tpl fn hg]; exact hlen
    | none =>
        cases hf : newFunction (paramsOf e) (fnCodeOf e tpl) with
        | ok fn =>
            rw [compile_miss_ok e tpl fn hg hf]
            simp only [List.length_append, List.length_singleton]
            by_cases hm : e.maxCache ≤ e.cache.length
            · rw [if_pos hm]
              have : e.cache.tail.length = e.cache.length - 1 := List.length_tail _
              omega
            · rw [if_neg hm]
              omega
        | error msg => rw [compile_miss_err e tpl msg hg hf]; exact hlen
  · intro fn hg hfull hok
    cases hf : newFunction (paramsOf e) (fnCodeOf e tpl) with
    | ok fn' =>
        rw [compile_miss_ok e tpl fn' hg hf] at hok ⊢
        simp only at hok
        injection hok with hok
        subst hok
        rw [if_pos hfull]
    | error msg =>
        rw [compile_miss_err e tpl msg hg hf] at hok
        exact absurd hok (by simp)

/-- A routine value used to populate concrete cache states in witnesses. -/
def rtn0 : Routine := { params := ["data", "escapeHTML"], body := "b" }

/-- A concrete engine whose one-slot cache is full, holding `t1 ↦ rtn0`. -/
def engineFull : Engine := { newEngine with maxCache := 1, cache := [("t1", rtn0)] }

/-- The routine compiled from the one-character template `x`. -/
def rtnX : Routine :=
  { params := ["data", "escapeHTML"],
    body := "with(data) \x7b let output=\"\";\noutput+=\"x\";\nreturn output; \x7d" }

/-- Witness for `cache_fifo_bound`: on the full one-slot engine, compiling the
new template `x` keeps the cache within its bound and replaces the oldest
entry `t1` with `x`, while a hit on `t1` leaves the cache unchanged. -/
theorem cache_fifo_bound_witness :
    (compile engineFull "x").2.cache.length ≤ 1 ∧
    (compile engineFull "x").2.cache = engineFull.cache.tail ++ [("x", rtnX)] ∧
    compile engineFull "t1"
      = (.ok rtn0, { engineFull with cacheLookups := engineFull.cacheLookups + 1 }) := by
  have h := cache_fifo_bound engineFull "x"
  have h2 := cache_fifo_bound engineFull "t1"
  exact ⟨h.2.2.1 (by decide) (by decide),
         h.2.2.2.1 rtnX (by decide) (by decide) (by rfl),
         h2.2.2.2.2 rtn0 (by decide)⟩

/-- Claim C5: the cache is keyed by the exact raw template string: whenever the
cache of an engine — whatever its preprocessors, wrappers or plugin state,
which are universally quantified here — holds a routine under the raw string
`tpl`, compiling `tpl` again returns that very routine with no recompilation
(the construction counter `fnBuilds` and the preprocessor counter `ppCalls`
are unchanged, and the cache itself is untouched), and a render of the same
raw template therefore differs from another render only in the data passed to
the same cached routine. -/
theorem cache_hit_reuse (e : Engine) (tpl : String) (fn : Routine)
    (h : cacheGet e.cache tpl = some fn) :
    compile e tpl = (.ok fn, { e with cacheLookups := e.cacheLookups + 1 }) ∧
    ((compile e tpl).2.fnBuilds = e.fnBuilds ∧
     (compile e tpl).2.ppCalls = e.ppCalls ∧
     (compile e tpl).2.cache = e.cache) ∧
    (∀ exec d, tpl ≠ "" →
      render exec e (.str tpl) d
        = (match exec fn (buildArgs e d) with
           | .ok out => (.ok out, { e with cacheLookups := e.cacheLookups + 1 })
           | .error msg =>
               (.error ("Template render failed: " ++ msg),
                { e with cacheLookups := e.cacheLookups + 1 }))) := by
  have hc := compile_hit e tpl fn h
  refine ⟨hc, ⟨by rw [hc], by rw [hc], by rw [hc]⟩, ?_⟩
  intro exec d hne
  rw [render_str exec e tpl d (isEmpty_false_of_ne tpl hne), hc]

/-- Witness for `cache_hit_reuse`: on the concrete engine whose cache holds
`t1`, compiling `t1` returns the cached routine with the cache untouched, and
rendering `t1` feeds that routine to the executor. -/
theorem cache_hit_reuse_witness :
    compile engineFull "t1"
      = (.ok rtn0, { engineFull with cacheLookups := engineFull.cacheLookups + 1 }) ∧
    render (fun _ _ => .ok "out") engineFull (.str "t1") .nullV
      = (.ok "out", { engineFull with cacheLookups := engineFull.cacheLookups + 1 }) := by
  have h := cache_hit_reuse engineFull "t1" rtn0 (by decide)
  exact ⟨h.1, h.2.2 (fun _ _ => .ok "out") .nullV (by decide)⟩

/-- Claim C7: if constructing the executable routine from the generated source
throws — `newFunction` returns the underlying syntax error — then `#compile`
rethrows it as `Template compilation failed: <underlying message>` and the
cache is left exactly as it was: no entry for the template is added. -/
theorem compile_failure_not_cached (e : Engine) (tpl : String) (msg : String)
    (hm : cacheGet e.cache tpl = none)
    (hf : newFunction (paramsOf e) (fnCodeOf e tpl) = .error msg) :
    (compile e tpl).1 = .error ("Template compilation failed: " ++ msg) ∧
    (compile e tpl).2.cache = e.cache := by
  rw [compile_miss_err e tpl msg hm hf]
  exact ⟨rfl, rfl⟩

/-- Witness for `compile_failure_not_cached`: the template
`[[ if (x) { ]]yes` generates an unbalanced block, so routine construction
fails with `Unexpected end of input`, the compile error carries both that
message and the compilation prefix, and the fresh engine's cache stays
empty. -/
theorem compile_failure_not_cached_witness :
    (compile newEngine "[[ if (x) \x7b ]]yes").1
      = .error ("Template compilation failed: " ++ "Unexpected end of input") ∧
    (compile newEngine "[[ if (x) \x7b ]]yes").2.cache = newEngine.cache :=
  compile_failure_not_cached newEngine "[[ if (x) \x7b ]]yes"
    "Unexpected end of input" (by decide) (by rfl)

/-! ## Claims C8, C9, C10 -/

/-- Claim C8: the calling convention's two halves age differently.  When a miss
compiles and caches a routine, that routine's formal parameter list is
`[data, escapeHTML, ...extraParams]` as of *its own* compile time, and it stays
that way: after mutating the context to any new `extraParams := P` and
`extraArgs := A`, a recompile of the same template still returns the very same
cached routine with the old parameter list.  The actual argument list, by
contrast, is rebuilt at every invocation from the *current* state — its tail
is exactly the new `A` — and `render` feeds precisely that freshly built
argument record to the cached routine. -/
theorem extraArgs_live_params_fixed
    (e : Engine) (tpl : String) (fn : Routine) (e1 : Engine)
    (hm : cacheGet e.cache tpl = none)
    (hc : compile e tpl = (.ok fn, e1))
    (P : List String) (A : List Value) (d : Value) :
    fn.params = "data" :: "escapeHTML" :: e.extraParams ∧
    (buildArgs { e1 with extraParams := P, extraArgs := A } d).extra = A ∧
    (buildArgs { e1 with extraParams := P, extraArgs := A } d).data = d ∧
    (compile { e1 with extraParams := P, extraArgs := A } tpl).1 = .ok fn ∧
    (∀ exec, tpl ≠ "" →
      (render exec { e1 with extraParams := P, extraArgs := A } (.str tpl) d).1
        = (match exec fn (buildArgs { e1 with extraParams := P, extraArgs := A } d) with
           | .ok out => .ok out
           | .error m => .error ("Template render failed: " ++ m))) := by
  cases hfn : newFunction (paramsOf e) (fnCodeOf e tpl) with
  | error msg =>
      rw [compile_miss_err e tpl msg hm hfn] at hc
      have h1 := congrArg Prod.fst hc
      exact absurd h1 (by simp)
  | ok fn' =>
      rw [compile_miss_ok e tpl fn' hm hfn] at hc
      have h1 := congrArg Prod.fst hc
      have h2 := congrArg Prod.snd hc
      simp only at h1 h2
      have hfneq : fn' = fn := by injection h1
      rw [hfneq] at hfn h2
      -- the cache of the post-compile engine contains the routine under tpl
      have hkept :
          cacheGet (if e.maxCache ≤ e.cache.length then e.cache.tail
                    else e.cache) tpl = none := by
        by_cases hfull : e.maxCache ≤ e.cache.length
        · rw [if_pos hfull]; exact cacheGet_tail_none _ _ hm
        · rw [if_neg hfull]; exact hm
      have hcache : e1.cache
          = (if e.maxCache ≤ e.cache.length then e.cache.tail
             else e.cache) ++ [(tpl, fn)] := by
        rw [← h2]
      have hhit2 :
          cacheGet ({ e1 with extraParams := P, extraArgs := A } : Engine).cache
            tpl = some fn := by
        show cacheGet e1.cache tpl = some fn
        rw [hcache]
        exact cacheGet_append _ _ _ hkept
      refine ⟨(newFunction_ok _ _ _ hfn).1, rfl, rfl, ?_, ?_⟩
      · rw [compile_hit _ tpl fn hhit2]
      · intro exec hne
        exact render_ok exec _ tpl d (isEmpty_false_of_ne tpl hne) fn _
          (compile_hit _ tpl fn hhit2)

/-- The engine state after compiling the one-character template `t` on a fresh
engine (used by the witness below). -/
def engineT : Engine := (compile newEngine "t").2

/-- The routine compiled from the template `t`. -/
def rtnT : Routine :=
  { params := ["data", "escapeHTML"],
    body := "with(data) \x7b let output=\"\";\noutput+=\"t\";\nreturn output; \x7d" }

/-- Witness for `extraArgs_live_params_fixed`: after caching `t` on a fresh
engine and then mutating the context to `extraParams := [p]`,
`extraArgs := [7]`, the cached routine still has the old two-element parameter
list, the rebuilt argument record carries the new extra argument, the
recompile returns the same routine, and `render` hands that routine the new
arguments. -/
theorem extraArgs_live_params_fixed_witness :
    rtnT.params = "data" :: "escapeHTML" :: newEngine.extraParams ∧
    (buildArgs { engineT with extraParams := ["p"], extraArgs := [.num 7] } .nullV).extra
      = [.num 7] ∧
    (compile { engineT with extraParams := ["p"], extraArgs := [.num 7] } "t").1
      = .ok rtnT ∧
    (render (fun _ _ => .ok "o")
        { engineT with extraParams := ["p"], extraArgs := [.num 7] }
        (.str "t") .nullV).1 = .ok "o" := by
  have h := extraArgs_live_params_fixed newEngine "t" rtnT engineT
    (by decide) (by rfl) ["p"] [.num 7] .nullV
  exact ⟨h.1, h.2.1, h.2.2.2.1, h.2.2.2.2 (fun _ _ => .ok "o") (by decide)⟩

/-- Claim C9: `clear()` removes every cache entry unconditionally (as a total
function it cannot throw, and on an already-empty cache it is the identity),
returns the engine value for chaining, and leaves everything else exactly as
it was: the installed plugin list, plugin-attached engine state (such as a
partials registry), and the whole plugin context — preprocessors, wrappers,
extraParams, extraArgs — are neither removed nor reset. -/
theorem clear_frame (e : Engine) :
    (clear e).cache = [] ∧
    (clear e).preprocessors = e.preprocessors ∧
    (clear e).wrappers = e.wrappers ∧
    (clear e).extraParams = e.extraParams ∧
    (clear e).extraArgs = e.extraArgs ∧
    (clear e).plugins = e.plugins ∧
    (clear e).pluginData = e.pluginData ∧
    (clear e).maxCache = e.maxCache ∧
    clear (clear e) = clear e ∧
    (e.cache = [] → clear e = e) := by
  refine ⟨rfl, rfl, rfl, rfl, rfl, rfl, rfl, rfl, rfl, ?_⟩
  intro h
  cases e
  simp only at h
  subst h
  rfl

/-- Witness for `clear_frame`: clearing the fresh engine (whose cache is
already empty) is the identity. -/
theorem clear_frame_witness : clear newEngine = newEngine :=
  (clear_frame newEngine).2.2.2.2.2.2.2.2.2 rfl

/-- Claim C10: every error `render` throws other than the initial
falsy-template rejection carries the `Template render failed: ` prefix: any
error result of `render` is either exactly `Template required` or has that
prefix; every error `#compile` produces carries the
`Template compilation failed: ` prefix; and a compilation failure reached
through `render` is rewrapped, surfacing with both prefixes as
`Template render failed: Template compilation failed: <underlying message>`
rather than as a distinct compilation-only error. -/
theorem render_error_prefixes :
    (∀ (exec : Routine → CallArgs → Except String String) (e : Engine)
        (t : TplArg) (d : Value) (msg : String),
      (render exec e t d).1 = .error msg →
      msg = "Template required" ∨
        ∃ rest, msg = "Template render failed: " ++ rest) ∧
    (∀ (e : Engine) (tpl msg : String),
      (compile e tpl).1 = .error msg →
      ∃ under, msg = "Template compilation failed: " ++ under) ∧
    (∀ (exec : Routine → CallArgs → Except String String) (e : Engine)
        (s : String) (d : Value) (msg : String),
      s ≠ "" → (compile e s).1 = .error msg →
      (render exec e (.str s) d).1
        = .error ("Template render failed: " ++ msg)) ∧
    (∀ (exec : Routine → CallArgs → Except String String) (e : Engine)
        (s : String) (d : Value) (under : String),
      s ≠ "" →
      (compile e s).1 = .error ("Template compilation failed: " ++ under) →
      (render exec e (.str s) d).1
        = .error ("Template render failed: "
            ++ ("Template compilation failed: " ++ under))) := by
  have hcompile : ∀ (e : Engine) (tpl msg : String),
      (compile e tpl).1 = .error msg →
      ∃ under, msg = "Template compilation failed: " ++ under := by
    intro e tpl msg h
    cases hg : cacheGet e.cache tpl with
    | some fn =>
        rw [compile_hit e tpl fn hg] at h
        exact absurd h (by simp)
    | none =>
        cases hf : newFunction (paramsOf e) (fnCodeOf e tpl) with
        | ok fn =>
            rw [compile_miss_ok e tpl fn hg hf] at h
            exact absurd h (by simp)
        | error m =>
            rw [compile_miss_err e tpl m hg hf] at h
            simp only at h
            injection h with h
            exact ⟨m, h.symm⟩
  have hwrap : ∀ (exec : Routine → CallArgs → Except String String) (e : Engine)
      (s : String) (d : Value) (msg : String),
      s ≠ "" → (compile e s).1 = .error msg →
      (render exec e (.str s) d).1
        = .error ("Template render failed: " ++ msg) := by
    intro exec e s d msg hne hc
    rw [render_str exec e s d (isEmpty_false_of_ne s hne)]
    rcases hcp : compile e s with ⟨res, e1⟩
    rw [hcp] at hc
    have hc' : res = .error msg := hc
    subst hc'
    rfl
  refine ⟨?_, hcompile, hwrap, fun exec e s d under hne hc => hwrap exec e s d _ hne hc⟩
  intro exec e t d msg h
  match t with
  | .nullArg =>
      have h' : (Except.error "Template required" : Except String String)
          = .error msg := h
      injection h' with h'
      exact Or.inl h'.symm
  | .undefArg =>
      have h' : (Except.error "Template required" : Except String String)
          = .error msg := h
      injection h' with h'
      exact Or.inl h'.symm
  | .str s =>
      by_cases hie : s.isEmpty = true
      · have hr : render exec e (.str s) d = (.error "Template required", e) := by
          simp [render, hie]
        rw [hr] at h
        have h' : (Except.error "Template required" : Except String String)
            = .error msg := h
        injection h' with h'
        exact Or.inl h'.symm
      · have hie' : s.isEmpty = false := by
          cases hx : s.isEmpty
          · rfl
          · exact absurd hx hie
        rw [render_str exec e s d hie'] at h
        rcases hcp : compile e s with ⟨res, e1⟩
        rw [hcp] at h
        cases res with
        | error m =>
            have h' : (Except.error ("Template render failed: " ++ m)
                : Except String String) = .error msg := h
            injection h' with h'
            exact Or.inr ⟨m, h'.symm⟩
        | ok fn =>
            have h2 : (match exec fn (buildArgs e d) with
                | Except.ok out => ((Except.ok out : Except String String), e1)
                | Except.error m =>
                    (Except.error ("Template render failed: " ++ m), e1)).1
                = Except.error msg := h
            cases hex : exec fn (buildArgs e d) with
            | ok out =>
                rw [hex] at h2
                exact absurd h2 (by simp)
            | error m =>
                rw [hex] at h2
                have h' : (Except.error ("Template render failed: " ++ m)
                    : Except String String) = .error msg := h2
                injection h' with h'
                exact Or.inr ⟨m, h'.symm⟩

/-- Witness for `render_error_prefixes`: rendering the unbalanced-block
template on a fresh engine surfaces the compilation failure with both
prefixes. -/
theorem render_error_prefixes_witness :
    (render (fun _ _ => .ok "") newEngine (.str "[[ if (x) \x7b ]]yes") .nullV).1
      = .error ("Template render failed: "
          ++ "Template compilation failed: Unexpected end of input") :=
  render_error_prefixes.2.2.1 (fun _ _ => .ok "") newEngine
    "[[ if (x) \x7b ]]yes" .nullV
    "Template compilation failed: Unexpected end of input" (by decide) (by rfl)

/-! ## Claim C2: control-flow fidelity of the forEach template -/

/-- The control-flow template of the claim. -/
def tplForEach : String := "[[ items.forEach(item => \x7b ]][[= item ]][[ \x7d) ]]"

/-- The data object `{ items: ['A','B','C'] }`. -/
def dataForEach : Value := .obj [("items", .list [.str "A", .str "B", .str "C"])]

/-- Property lookup on a data object (the resolution `with(data)` performs for
an identifier that is a field of `data`). -/
def getField (v : Value) (k : String) : Option Value :=
  match v with
  | .obj fields => (fields.find? (fun p => p.1 == k)).map (·.2)
  | _ => none

/-- Modelled from the spec: host-language execution of the routine the engine
generates for the forEach template (dynamic code execution via the `Function`
constructor is outside the repository source).  Following the generated
statements: the accumulator starts empty; the first `CodeStatement` opens
`items.forEach(item => \x7b`, iterating over the `items` field that
`with(data)` resolves; inside the block the escaped-output statement appends
`escapeHTML(item)` to the accumulator; the second `CodeStatement` `\x7d)`
closes the block; and the routine returns the accumulator. -/
def execForEach (_r : Routine) (a : CallArgs) : Except String String :=
  match getField a.data "items" with
  | some (.list items) => .ok (items.foldl (fun out v => out ++ a.escape v) "")
  | _ => .error "items is not defined"

/-- Claim C2: `render('[[ items.forEach(item => \x7b ]][[= item ]][[ \x7d) ]]',
\x7b items: ['A','B','C'] \x7d)` returns exactly `ABC`: the two
`CodeStatement` markers are emitted verbatim as statements in the generated
source — the first opens the loop block, the escaped-output token contributes
`output+=escapeHTML(item);` inside it, the second closes it — and executing
the routine produces `ABC`. -/
theorem render_forEach_abc :
    tokenize tplForEach
      = [Token.CodeStatement "items.forEach(item => \x7b",
         Token.EscapedOutput "item", Token.CodeStatement "\x7d)"] ∧
    fnCodeOf newEngine tplForEach
      = "with(data) \x7b let output=\"\";\nitems.forEach(item => \x7b\noutput+=escapeHTML(item);\n\x7d)\nreturn output; \x7d" ∧
    (render execForEach newEngine (.str tplForEach) dataForEach).1 = .ok "ABC" := by
  refine ⟨rfl, rfl, ?_⟩
  have h : (render execForEach newEngine (.str tplForEach) dataForEach).1
      = .ok ((("" ++ escapeHTML (.str "A")) ++ escapeHTML (.str "B"))
          ++ escapeHTML (.str "C")) := rfl
  rw [h, escapeHTML_str, escapeHTML_str, escapeHTML_str]
  rfl

end TemplateEngine
